import Mathlib

/-!
Verification of the SOP generator's document assembly engine
(`create_word_doc_from_template` in `backend/app.py`): the Step model,
the Row Renderer, the Merge-Range Planner, the Merge Applier and the
structural skeleton of the Document Assembler, shallowly embedded.

Python `dict.get` values that may be absent or `None` are embedded as
`Option String`; Python truthiness of such a value (`None` and `""` are
falsy) is `pyTruthy`.  Python `==` on these values coincides with `BEq`
on `Option String` (`None == "" ` is `False` in Python, as is
`none == some ""` here).
-/

/-- One entry of a step's `paragraphs` list (`para_data` in the source):
`{text, alignment, font_size, bold}`.  `alignment` is the raw string the
parser produced; the renderer compares it against `"CENTER"` and
`"JUSTIFY"`. -/
structure ParaData where
  text : String
  alignment : String
  font_size : Nat
  bold : Bool
deriving DecidableEq, Repr

/-- The `raci` mapping of a step: keys `responsible | accountable |
consulted | informed`.  `none` stands for an absent key or a `None`
value (both render as `"N/A"` via `raci.get(key, 'N/A') or 'N/A'`). -/
structure Raci where
  responsible : Option String
  accountable : Option String
  consulted : Option String
  informed : Option String
deriving DecidableEq, Repr

/-- A step record as consumed by `create_word_doc_from_template`. -/
structure Step where
  ref : String
  paragraphs : List ParaData
  raci : Raci
  is_gateway : Bool
  sla : Option String
  sla_group : Option String
deriving DecidableEq, Repr

/-- Python truthiness of an optional string: `None` and `""` are falsy. -/
def pyTruthy : Option String → Bool
  | none => false
  | some s => !(s == "")

/-! ## Merge-Range Planner (app.py lines 1419-1460)

The planner is a while loop over `idx` with two nested absorption
loops.  Each inner loop is embedded as its own recursive function on
the index, decreasing on `steps.length - index`.  `absorbGateways`
embeds `while j < len(steps) and steps[j].get('is_gateway', False):
merge_end = j; j += 1`, returning the final `(j, merge_end)`. -/

def absorbGateways (steps : List Step) (j mergeEnd : Nat) : Nat × Nat :=
  if h : j < steps.length then
    if steps[j].is_gateway then
      absorbGateways steps (j + 1) j
    else
      (j, mergeEnd)
  else
    (j, mergeEnd)
termination_by steps.length - j

/-- `absorbGateways` never moves `j` backwards. -/
theorem absorbGateways_fst_ge (steps : List Step) (j mergeEnd : Nat) :
    j ≤ (absorbGateways steps j mergeEnd).1 := by
  unfold absorbGateways
  split
  · split
    · have ih := absorbGateways_fst_ge steps (j + 1) j
      omega
    · simp
  · simp
termination_by steps.length - j

/-- Started with `j = mergeEnd + 1` (as in both planner branches), the
gateway absorption keeps `j = mergeEnd + 1`: `merge_end` is always the
last absorbed index. -/
theorem absorbGateways_fst_eq_snd (steps : List Step) (m : Nat) :
    (absorbGateways steps (m + 1) m).1 = (absorbGateways steps (m + 1) m).2 + 1 := by
  unfold absorbGateways
  split
  · split
    · exact absorbGateways_fst_eq_snd steps (m + 1)
    · simp
  · simp
termination_by steps.length - m

/-- Gateway absorption never moves `merge_end` below its start. -/
theorem absorbGateways_snd_ge (steps : List Step) (m : Nat) :
    m ≤ (absorbGateways steps (m + 1) m).2 := by
  have h1 := absorbGateways_fst_ge steps (m + 1) m
  have h2 := absorbGateways_fst_eq_snd steps m
  omega

/-- Gateway absorption keeps `merge_end` inside the sequence. -/
theorem absorbGateways_snd_lt (steps : List Step) (m : Nat)
    (hm : m < steps.length) :
    (absorbGateways steps (m + 1) m).2 < steps.length := by
  unfold absorbGateways
  split
  · rename_i h
    split
    · exact absorbGateways_snd_lt steps (m + 1) h
    · simpa using hm
  · simpa using hm
termination_by steps.length - m

/-- Gateway absorption stops exactly at the first non-gateway step (or
at the end of the sequence). -/
theorem absorbGateways_exit (steps : List Step) (j mergeEnd : Nat) :
    ∀ s, steps[(absorbGateways steps j mergeEnd).1]? = some s →
      s.is_gateway = false := by
  unfold absorbGateways
  split
  · rename_i h
    split
    · exact absorbGateways_exit steps (j + 1) j
    · rename_i hg
      intro s hs
      simp only [List.getElem?_eq_getElem h] at hs
      cases hs
      exact Bool.not_eq_true _ ▸ hg
  · rename_i h
    intro s hs
    rw [List.getElem?_eq_none (by omega)] at hs
    cases hs
termination_by steps.length - j

/-- Every index newly absorbed by the gateway loop holds a gateway
step. -/
theorem absorbGateways_absorbed (steps : List Step) (m : Nat) :
    ∀ k, m < k → k ≤ (absorbGateways steps (m + 1) m).2 →
      ∃ s, steps[k]? = some s ∧ s.is_gateway = true := by
  unfold absorbGateways
  split
  · rename_i h
    split
    · rename_i hg
      intro k hk1 hk2
      by_cases hk : k = m + 1
      · subst hk
        exact ⟨steps[m + 1], List.getElem?_eq_getElem h, hg⟩
      · exact absorbGateways_absorbed steps (m + 1) k (by omega) hk2
    · intro k hk1 hk2
      simp only at hk2
      omega
  · intro k hk1 hk2
    simp only at hk2
    omega
termination_by steps.length - m

/-- Embeds the group-absorption loop (app.py lines 1447-1453):
`while j < len(steps) and steps[j].get('sla_group') == sla_group:
merge_end = j; j += 1;` followed by gateway absorption, repeated. -/
def absorbGroup (steps : List Step) (g : Option String) (j mergeEnd : Nat) :
    Nat × Nat :=
  if h : j < steps.length then
    if steps[j].sla_group == g then
      absorbGroup steps g (absorbGateways steps (j + 1) j).1
        (absorbGateways steps (j + 1) j).2
    else
      (j, mergeEnd)
  else
    (j, mergeEnd)
termination_by steps.length - j
decreasing_by
  have := absorbGateways_fst_ge steps (j + 1) j
  omega

/-- `absorbGroup` never moves `j` backwards. -/
theorem absorbGroup_fst_ge (steps : List Step) (g : Option String)
    (j mergeEnd : Nat) : j ≤ (absorbGroup steps g j mergeEnd).1 := by
  unfold absorbGroup
  split
  · split
    · have h1 := absorbGateways_fst_ge steps (j + 1) j
      have ih := absorbGroup_fst_ge steps g
        (absorbGateways steps (j + 1) j).1 (absorbGateways steps (j + 1) j).2
      omega
    · simp
  · simp
termination_by steps.length - j
decreasing_by
  have := absorbGateways_fst_ge steps (j + 1) j
  omega

/-- Started with `j = mergeEnd + 1`, the group absorption keeps
`j = mergeEnd + 1`. -/
theorem absorbGroup_fst_eq_snd (steps : List Step) (g : Option String)
    (j mergeEnd : Nat) (hj : j = mergeEnd + 1) :
    (absorbGroup steps g j mergeEnd).1 = (absorbGroup steps g j mergeEnd).2 + 1 := by
  unfold absorbGroup
  split
  · rename_i h
    split
    · exact absorbGroup_fst_eq_snd steps g _ _ (absorbGateways_fst_eq_snd steps j)
    · simpa using hj
  · simpa using hj
termination_by steps.length - j
decreasing_by
  have := absorbGateways_fst_ge steps (j + 1) j
  omega

/-- Group absorption never moves `merge_end` below its start. -/
theorem absorbGroup_snd_ge (steps : List Step) (g : Option String)
    (j mergeEnd : Nat) (hj : j = mergeEnd + 1) :
    mergeEnd ≤ (absorbGroup steps g j mergeEnd).2 := by
  unfold absorbGroup
  split
  · rename_i h
    split
    · have h1 := absorbGateways_snd_ge steps j
      have h2 := absorbGroup_snd_ge steps g _ _ (absorbGateways_fst_eq_snd steps j)
      omega
    · simp
  · simp
termination_by steps.length - j
decreasing_by
  have := absorbGateways_fst_ge steps (j + 1) j
  omega

/-- Group absorption keeps `merge_end` inside the sequence. -/
theorem absorbGroup_snd_lt (steps : List Step) (g : Option String)
    (j mergeEnd : Nat) (hme : mergeEnd < steps.length) :
    (absorbGroup steps g j mergeEnd).2 < steps.length := by
  unfold absorbGroup
  split
  · rename_i h
    split
    · exact absorbGroup_snd_lt steps g _ _ (absorbGateways_snd_lt steps j h)
    · simpa using hme
  · simpa using hme
termination_by steps.length - j
decreasing_by
  have := absorbGateways_fst_ge steps (j + 1) j
  omega

/-- Group absorption stops at a step whose group key differs from the
owner's (or at the end of the sequence). -/
theorem absorbGroup_exit_group (steps : List Step) (g : Option String)
    (j mergeEnd : Nat) :
    ∀ s, steps[(absorbGroup steps g j mergeEnd).1]? = some s →
      (s.sla_group == g) = false := by
  unfold absorbGroup
  split
  · rename_i h
    split
    · exact absorbGroup_exit_group steps g _ _
    · rename_i hgrp
      intro s hs
      simp only [List.getElem?_eq_getElem h] at hs
      cases hs
      exact Bool.not_eq_true _ ▸ hgrp
  · rename_i h
    intro s hs
    rw [List.getElem?_eq_none (by omega)] at hs
    cases hs
termination_by steps.length - j
decreasing_by
  have := absorbGateways_fst_ge steps (j + 1) j
  omega

/-- If the group absorption is entered at a non-gateway position (as it
always is, coming out of the gateway loop), it also stops at a
non-gateway position. -/
theorem absorbGroup_exit_gateway (steps : List Step) (g : Option String)
    (j mergeEnd : Nat)
    (hj : ∀ s, steps[j]? = some s → s.is_gateway = false) :
    ∀ s, steps[(absorbGroup steps g j mergeEnd).1]? = some s →
      s.is_gateway = false := by
  unfold absorbGroup
  split
  · rename_i h
    split
    · exact absorbGroup_exit_gateway steps g _ _
        (absorbGateways_exit steps (j + 1) j)
    · exact hj
  · exact hj
termination_by steps.length - j
decreasing_by
  have := absorbGateways_fst_ge steps (j + 1) j
  omega

/-- Every index newly absorbed by the group loop holds either a gateway
step or a step carrying the owner's group key. -/
theorem absorbGroup_absorbed (steps : List Step) (g : Option String)
    (m : Nat) :
    ∀ k, m < k → k ≤ (absorbGroup steps g (m + 1) m).2 →
      ∃ s, steps[k]? = some s ∧
        (s.is_gateway = true ∨ (s.sla_group == g) = true) := by
  unfold absorbGroup
  split
  · rename_i h
    split
    · rename_i hgrp
      rw [absorbGateways_fst_eq_snd steps (m + 1)]
      intro k hk1 hk2
      by_cases hk : k = m + 1
      · subst hk
        exact ⟨steps[m + 1], List.getElem?_eq_getElem h, Or.inr hgrp⟩
      · by_cases hk3 : k ≤ (absorbGateways steps (m + 1 + 1) (m + 1)).2
        · obtain ⟨s, hs1, hs2⟩ :=
            absorbGateways_absorbed steps (m + 1) k (by omega) hk3
          exact ⟨s, hs1, Or.inl hs2⟩
        · exact absorbGroup_absorbed steps g
            (absorbGateways steps (m + 1 + 1) (m + 1)).2 k (by omega) hk2
    · intro k hk1 hk2
      simp only at hk2
      omega
  · intro k hk1 hk2
    simp only at hk2
    omega
termination_by steps.length - m
decreasing_by
  have := absorbGateways_snd_ge steps (m + 1)
  omega

/-- Embeds the skip in the planner's third branch (app.py lines
1458-1460): `idx += 1; while idx < len(steps) and
steps[idx].get('is_gateway', False): idx += 1`, given the already
incremented index. -/
def skipGateways (steps : List Step) (idx : Nat) : Nat :=
  if h : idx < steps.length then
    if steps[idx].is_gateway then
      skipGateways steps (idx + 1)
    else
      idx
  else
    idx
termination_by steps.length - idx

/-- `skipGateways` never moves the index backwards. -/
theorem skipGateways_ge (steps : List Step) (idx : Nat) :
    idx ≤ skipGateways steps idx := by
  unfold skipGateways
  split
  · split
    · have ih := skipGateways_ge steps (idx + 1)
      omega
    · simp
  · simp
termination_by steps.length - idx

/-- The planner's main while loop (app.py lines 1421-1460), producing
`sla_merges` as a list of `(merge_start, merge_end, value)` triples. -/
def slaMergesLoop (steps : List Step) (idx : Nat) :
    List (Nat × Nat × Option String) :=
  if h : idx < steps.length then
    if pyTruthy steps[idx].sla && !pyTruthy steps[idx].sla_group then
      (idx, (absorbGateways steps (idx + 1) idx).2, steps[idx].sla) ::
        slaMergesLoop steps (absorbGateways steps (idx + 1) idx).1
    else if pyTruthy steps[idx].sla_group then
      (idx,
        (absorbGroup steps steps[idx].sla_group
          (absorbGateways steps (idx + 1) idx).1
          (absorbGateways steps (idx + 1) idx).2).2, steps[idx].sla) ::
        slaMergesLoop steps
          (absorbGroup steps steps[idx].sla_group
            (absorbGateways steps (idx + 1) idx).1
            (absorbGateways steps (idx + 1) idx).2).1
    else
      slaMergesLoop steps (skipGateways steps (idx + 1))
  else
    []
termination_by steps.length - idx
decreasing_by
  · have := absorbGateways_fst_ge steps (idx + 1) idx
    omega
  · have h1 := absorbGateways_fst_ge steps (idx + 1) idx
    have h2 := absorbGroup_fst_ge steps (steps[idx].sla_group)
      (absorbGateways steps (idx + 1) idx).1
      (absorbGateways steps (idx + 1) idx).2
    omega
  · have := skipGateways_ge steps (idx + 1)
    omega

/-- `sla_merges` as computed for a full step sequence (loop entered at
index 0). -/
def computeSlaMerges (steps : List Step) : List (Nat × Nat × Option String) :=
  slaMergesLoop steps 0

/-- Every range the loop emits from index `i` on starts at or after
`i`, is well formed (`start ≤ end`) and ends inside the sequence. -/
theorem slaMergesLoop_lower (steps : List Step) (i : Nat) :
    ∀ r ∈ slaMergesLoop steps i,
      i ≤ r.1 ∧ r.1 ≤ r.2.1 ∧ r.2.1 < steps.length := by
  unfold slaMergesLoop
  split
  · rename_i h
    split
    · intro r hr
      rcases List.mem_cons.mp hr with hr | hr
      · subst hr
        refine ⟨Nat.le_refl i, absorbGateways_snd_ge steps i,
          absorbGateways_snd_lt steps i h⟩
      · have ih := slaMergesLoop_lower steps
          (absorbGateways steps (i + 1) i).1 r hr
        have h1 := absorbGateways_fst_ge steps (i + 1) i
        exact ⟨by omega, ih.2.1, ih.2.2⟩
    · split
      · intro r hr
        rcases List.mem_cons.mp hr with hr | hr
        · subst hr
          have h1 := absorbGateways_snd_ge steps i
          have h2 := absorbGroup_snd_ge steps steps[i].sla_group
            (absorbGateways steps (i + 1) i).1
            (absorbGateways steps (i + 1) i).2
            (absorbGateways_fst_eq_snd steps i)
          have h3 := absorbGroup_snd_lt steps steps[i].sla_group
            (absorbGateways steps (i + 1) i).1
            (absorbGateways steps (i + 1) i).2
            (absorbGateways_snd_lt steps i h)
          simp only
          exact ⟨Nat.le_refl i, by omega, h3⟩
        · have ih := slaMergesLoop_lower steps
            (absorbGroup steps steps[i].sla_group
              (absorbGateways steps (i + 1) i).1
              (absorbGateways steps (i + 1) i).2).1 r hr
          have h1 := absorbGateways_fst_ge steps (i + 1) i
          have h2 := absorbGroup_fst_ge steps steps[i].sla_group
            (absorbGateways steps (i + 1) i).1
            (absorbGateways steps (i + 1) i).2
          exact ⟨by omega, ih.2.1, ih.2.2⟩
      · intro r hr
        have ih := slaMergesLoop_lower steps
          (skipGateways steps (i + 1)) r hr
        have h1 := skipGateways_ge steps (i + 1)
        exact ⟨by omega, ih.2.1, ih.2.2⟩
  · intro r hr
    cases hr
termination_by steps.length - i
decreasing_by
  all_goals
    have h1 := absorbGateways_fst_ge steps (i + 1) i
    have h2 := absorbGroup_fst_ge steps (steps[i].sla_group)
      (absorbGateways steps (i + 1) i).1
      (absorbGateways steps (i + 1) i).2
    have h3 := skipGateways_ge steps (i + 1)
    omega

/-- The emitted ranges are chained: each range ends strictly before the
next one starts. -/
theorem slaMergesLoop_chain (steps : List Step) (i : Nat) :
    (slaMergesLoop steps i).Pairwise (fun a b => a.2.1 < b.1) := by
  unfold slaMergesLoop
  split
  · rename_i h
    split
    · refine List.pairwise_cons.mpr ⟨fun r hr => ?_, ?_⟩
      · have hl := slaMergesLoop_lower steps
          (absorbGateways steps (i + 1) i).1 r hr
        have h1 := absorbGateways_fst_eq_snd steps i
        simp only
        omega
      · exact slaMergesLoop_chain steps (absorbGateways steps (i + 1) i).1
    · split
      · refine List.pairwise_cons.mpr ⟨fun r hr => ?_, ?_⟩
        · have hl := slaMergesLoop_lower steps
            (absorbGroup steps steps[i].sla_group
              (absorbGateways steps (i + 1) i).1
              (absorbGateways steps (i + 1) i).2).1 r hr
          have h1 := absorbGroup_fst_eq_snd steps steps[i].sla_group
            (absorbGateways steps (i + 1) i).1
            (absorbGateways steps (i + 1) i).2
            (absorbGateways_fst_eq_snd steps i)
          simp only
          omega
        · exact slaMergesLoop_chain steps
            (absorbGroup steps steps[i].sla_group
              (absorbGateways steps (i + 1) i).1
              (absorbGateways steps (i + 1) i).2).1
      · exact slaMergesLoop_chain steps (skipGateways steps (i + 1))
  · exact List.Pairwise.nil
termination_by steps.length - i
decreasing_by
  all_goals
    have h1 := absorbGateways_fst_ge steps (i + 1) i
    have h2 := absorbGroup_fst_ge steps (steps[i].sla_group)
      (absorbGateways steps (i + 1) i).1
      (absorbGateways steps (i + 1) i).2
    have h3 := skipGateways_ge steps (i + 1)
    omega

/-- Every emitted range carries the `sla` of the step at its start
index, and that step passed one of the two range-opening tests (truthy
`sla` without group, or truthy `sla_group`). -/
theorem slaMergesLoop_value (steps : List Step) (i : Nat) :
    ∀ r ∈ slaMergesLoop steps i,
      ∃ s, steps[r.1]? = some s ∧ r.2.2 = s.sla ∧
        (pyTruthy s.sla = true ∨ pyTruthy s.sla_group = true) := by
  unfold slaMergesLoop
  split
  · rename_i h
    split
    · rename_i hb1
      intro r hr
      rcases List.mem_cons.mp hr with hr | hr
      · subst hr
        refine ⟨steps[i], List.getElem?_eq_getElem h, rfl, Or.inl ?_⟩
        simp only [Bool.and_eq_true] at hb1
        exact hb1.1
      · exact slaMergesLoop_value steps
          (absorbGateways steps (i + 1) i).1 r hr
    · split
      · rename_i hb2
        intro r hr
        rcases List.mem_cons.mp hr with hr | hr
        · subst hr
          exact ⟨steps[i], List.getElem?_eq_getElem h, rfl, Or.inr hb2⟩
        · exact slaMergesLoop_value steps
            (absorbGroup steps steps[i].sla_group
              (absorbGateways steps (i + 1) i).1
              (absorbGateways steps (i + 1) i).2).1 r hr
      · intro r hr
        exact slaMergesLoop_value steps (skipGateways steps (i + 1)) r hr
  · intro r hr
    cases hr
termination_by steps.length - i
decreasing_by
  all_goals
    have h1 := absorbGateways_fst_ge steps (i + 1) i
    have h2 := absorbGroup_fst_ge steps (steps[i].sla_group)
      (absorbGateways steps (i + 1) i).1
      (absorbGateways steps (i + 1) i).2
    have h3 := skipGateways_ge steps (i + 1)
    omega

/-- A plain non-gateway step with the given sla / sla_group fields and
no other content, for concrete planner inputs. -/
def mkStep (gw : Bool) (sla slaGroup : Option String) : Step :=
  { ref := "", paragraphs := [], raci := ⟨none, none, none, none⟩,
    is_gateway := gw, sla := sla, sla_group := slaGroup }

/-- The spec's branch-1 example: `[A(sla="4h"), gateway, gateway,
B(no sla)]`. -/
def exC1 : List Step :=
  [mkStep false (some "4h") none, mkStep true none none,
   mkStep true none none, mkStep false none none]

/-- The spec's group example: two plain steps, then `sla_group="G"`,
`sla="24h"` at indices 2,3,4 with index 3 a gateway. -/
def exC2 : List Step :=
  [mkStep false none none, mkStep false none none,
   mkStep false (some "24h") (some "G"),
   mkStep true (some "24h") (some "G"),
   mkStep false (some "24h") (some "G")]

/-- A single gateway step that carries its own truthy `sla`. -/
def exC3 : List Step := [mkStep true (some "4h") none]

/-- Two adjacent steps with their own distinct SLAs: two ranges. -/
def exC4 : List Step :=
  [mkStep false (some "1h") none, mkStep false (some "2h") none]

/-- A group whose first member has no `sla` and whose second member
carries `sla="8h"`. -/
def exC10 : List Step :=
  [mkStep false none (some "G"), mkStep false (some "8h") (some "G")]

/-- The planner's loop at a branch-1 step (truthy `sla`, falsy
`sla_group`): one unfolding of the while loop. -/
theorem slaMergesLoop_branch1 (steps : List Step) (idx : Nat)
    (hlt : idx < steps.length)
    (hb : (pyTruthy steps[idx].sla && !pyTruthy steps[idx].sla_group) = true) :
    slaMergesLoop steps idx =
      (idx, (absorbGateways steps (idx + 1) idx).2, steps[idx].sla) ::
        slaMergesLoop steps (absorbGateways steps (idx + 1) idx).1 := by
  conv_lhs => rw [slaMergesLoop.eq_def]
  rw [dif_pos hlt, if_pos hb]

/-- The planner's loop at a branch-2 step (truthy `sla_group`): one
unfolding of the while loop. -/
theorem slaMergesLoop_branch2 (steps : List Step) (idx : Nat)
    (hlt : idx < steps.length)
    (hb : pyTruthy steps[idx].sla_group = true) :
    slaMergesLoop steps idx =
      (idx,
        (absorbGroup steps steps[idx].sla_group
          (absorbGateways steps (idx + 1) idx).1
          (absorbGateways steps (idx + 1) idx).2).2, steps[idx].sla) ::
        slaMergesLoop steps
          (absorbGroup steps steps[idx].sla_group
            (absorbGateways steps (idx + 1) idx).1
            (absorbGateways steps (idx + 1) idx).2).1 := by
  conv_lhs => rw [slaMergesLoop.eq_def]
  rw [dif_pos hlt, if_neg (by simp [hb]), if_pos hb]

/-! ## Row Renderer (app.py lines 1331-1415)

One table row per step, seven cells.  A docx run is embedded as its
text plus the font attributes the code sets (`none` = attribute left at
its default); a paragraph as its alignment plus its runs; a cell as its
paragraphs plus the `w:shd` fill (at most one: the code removes existing
shading before appending) and the list of appended `w:vMerge` elements
(`some "restart"` for `w:val="restart"`, `none` for a value-less
continuation element). -/

inductive Align where
  | LEFT
  | CENTER
  | JUSTIFY
deriving DecidableEq, Repr

structure DRun where
  text : Option String
  fontName : Option String
  fontSize : Option Nat
  bold : Option Bool
  color : Option (Nat × Nat × Nat)
deriving DecidableEq, Repr

structure DPara where
  alignment : Option Align
  runs : List DRun
deriving DecidableEq, Repr

structure DCell where
  paras : List DPara
  shade : Option String
  vMerges : List (Option String)
deriving DecidableEq, Repr

/-- The run created by python-docx's `cell.text = s` setter: text only,
every font attribute at its default. -/
def plainRun (s : String) : DRun :=
  { text := some s, fontName := none, fontSize := none, bold := none,
    color := none }

/-- Cell 0 (app.py lines 1337-1347): cleared, centered; if `step['ref']`
is truthy, a bold red 14pt run is appended after the empty run the
`text = ''` setter created. -/
def refCell (step : Step) : DCell :=
  { paras := [{ alignment := some Align.CENTER,
                runs :=
                  if step.ref == "" then [plainRun ""]
                  else [plainRun "",
                        { text := some step.ref,
                          fontName := some "Avenir LT Std 45 Book",
                          fontSize := some 14, bold := some true,
                          color := some (255, 0, 0) }] }],
    shade := none, vMerges := [] }

/-- Alignment mapping of the description renderer (app.py lines
1363-1368): `'CENTER'` and `'JUSTIFY'` map to themselves, anything else
falls through to LEFT. -/
def alignOf (a : String) : Align :=
  if a == "CENTER" then Align.CENTER
  else if a == "JUSTIFY" then Align.JUSTIFY
  else Align.LEFT

/-- One description paragraph (app.py lines 1359-1376): alignment per
`alignOf`; a black run with the entry's font size and bold flag is
added only when the text is truthy. -/
def renderParaData (pd : ParaData) : DPara :=
  { alignment := some (alignOf pd.alignment),
    runs :=
      if pd.text == "" then []
      else [{ text := some pd.text,
              fontName := some "Avenir LT Std 45 Book",
              fontSize := some pd.font_size, bold := some pd.bold,
              color := some (0, 0, 0) }] }

/-- Cell 1 (app.py lines 1350-1376): cleared, the default paragraph
removed, then one paragraph per `paragraphs` entry. -/
def descCell (step : Step) : DCell :=
  { paras := step.paragraphs.map renderParaData, shade := none,
    vMerges := [] }

/-- `raci.get(raci_map[i], 'N/A') or 'N/A'` (app.py line 1397): absent
key defaults to `"N/A"`; a falsy present value (`None` or `""`) also
yields `"N/A"`. -/
def raciDisplay (v : Option String) : String :=
  let value := v.getD "N/A"
  if value == "" then "N/A" else value

/-- A RACI cell (app.py lines 1382-1400, `i` in 2..5): cleared,
centered, the display value added as a 9pt run after the empty run from
the `text = ''` setter. -/
def raciCell (v : Option String) : DCell :=
  { paras := [{ alignment := some Align.CENTER,
                runs := [plainRun "",
                         { text := some (raciDisplay v),
                           fontName := some "Avenir LT Std 45 Book",
                           fontSize := some 9, bold := none,
                           color := none }] }],
    shade := none, vMerges := [] }

/-- The SLA cell as the renderer leaves it (app.py lines 1392-1395):
cleared, centered, an empty 9pt run appended - the value is written
only by the merge applier. -/
def slaCellInit : DCell :=
  { paras := [{ alignment := some Align.CENTER,
                runs := [plainRun "",
                         { text := some "",
                           fontName := some "Avenir LT Std 45 Book",
                           fontSize := some 9, bold := none,
                           color := none }] }],
    shade := none, vMerges := [] }

/-- Gateway shading (app.py lines 1403-1415): cells 0-5 get a `D9D9D9`
fill, the SLA cell (index 6) is skipped. -/
def gatewayShade (step : Step) (c : DCell) : DCell :=
  if step.is_gateway then { c with shade := some "D9D9D9" } else c

/-- One rendered data row (the body of the per-step loop, app.py lines
1331-1415): seven cells. -/
def renderStep (step : Step) : List DCell :=
  [gatewayShade step (refCell step), gatewayShade step (descCell step),
   gatewayShade step (raciCell step.raci.responsible),
   gatewayShade step (raciCell step.raci.accountable),
   gatewayShade step (raciCell step.raci.consulted),
   gatewayShade step (raciCell step.raci.informed),
   slaCellInit]

/-! ## Merge Applier (app.py lines 1462-1490) -/

/-- In-place update of the element at an index, the rest unchanged
(out-of-range index: no change) - the embedding of mutating
`table.rows[i]` / `row.cells[6]`. -/
def listModify {α : Type} (f : α → α) : Nat → List α → List α
  | _, [] => []
  | 0, a :: as => f a :: as
  | n + 1, a :: as => a :: listModify f n as

/-- `p.runs[0].text = sla_value` guarded by `if p.runs:` (app.py lines
1487-1490), on the cell's first paragraph.  A rendered cell always has
a paragraph with at least one run (the `text = ''` setter run). -/
def writeSlaValue (v : Option String) (c : DCell) : DCell :=
  match c.paras with
  | [] => c
  | p :: ps =>
    match p.runs with
    | [] => c
    | r :: rs => { c with paras := { p with runs := { r with text := v } :: rs } :: ps }

/-- The per-row mutation of the SLA cell (app.py lines 1468-1490):
shading replaced by `F2F2F2`; a `w:vMerge` element appended when the
range spans more than one row (`restart` on the first row); the value
written into the first run of the first row only. -/
def applyToSlaCell (isFirst multi : Bool) (v : Option String) (c : DCell) :
    DCell :=
  let c1 : DCell := { c with shade := some "F2F2F2" }
  let c2 : DCell :=
    if multi then
      { c1 with vMerges := c1.vMerges ++ [if isFirst then some "restart" else none] }
    else c1
  if isFirst then writeSlaValue v c2 else c2

/-- The inner row loop for one merge range (app.py lines 1464-1490):
`for row_offset in range(merge_start, merge_end + 1)` with
`table_row_idx = row_offset + 1` and a `break` once the table runs out
of rows. -/
def applyRangeFrom (mergeStart mergeEnd : Nat) (v : Option String)
    (rows : List (List DCell)) (offset : Nat) : List (List DCell) :=
  if offset > mergeEnd then rows
  else if rows.length ≤ offset + 1 then rows
  else
    applyRangeFrom mergeStart mergeEnd v
      (listModify
        (listModify (applyToSlaCell (offset == mergeStart) (mergeStart < mergeEnd) v) 6)
        (offset + 1) rows)
      (offset + 1)
termination_by mergeEnd + 1 - offset

/-- The applier's outer loop (app.py line 1463): apply every planner
range in order to the table's rows. -/
def applySlaMerges (rows : List (List DCell))
    (merges : List (Nat × Nat × Option String)) : List (List DCell) :=
  merges.foldl (fun acc m => applyRangeFrom m.1 m.2.1 m.2.2 acc m.1) rows

/-! ## Document Assembler (structural skeleton)

The process-description table (`doc.tables[6]`, app.py lines
1320-1334): every row after the header row 0 is deleted, one row per
step is appended, then the planner's ranges are applied. -/

def buildStepTable (templateRows : List (List DCell)) (steps : List Step) :
    List (List DCell) :=
  templateRows.take 1 ++ steps.map renderStep

def processTable (templateRows : List (List DCell)) (steps : List Step) :
    List (List DCell) :=
  applySlaMerges (buildStepTable templateRows steps) (computeSlaMerges steps)

/-- A table skeleton of the template: its column count (python-docx
`add_row` creates that many cells) and its current rows. -/
structure PTable where
  cols : Nat
  rows : List (List DCell)
deriving Repr

/-- The structural skeleton of `create_word_doc_from_template` (app.py
lines 1194-1554) for the step table: the whole body runs under a
`try/except` that returns `None` on any exception, so the function
yields `none` instead of a document when
- the template has no tables (`raise Exception("No tables found in
  template")`, line 1226);
- `doc.tables[6]` does not exist (IndexError, line 1321);
- a step row is rendered against a table with fewer than 7 cells
  (IndexError at `cells[6]`, line 1384, hit exactly when at least one
  step is rendered).
Tables 0-5 and 7 are accessed only under `if len(doc.tables) > k`
guards and cannot raise here; their population is out of this model.
On success the step table is replaced by its populated version. -/
def buildDoc (tables : List PTable) (steps : List Step) :
    Option (List PTable) :=
  if tables.isEmpty then none
  else if h : 6 < tables.length then
    if steps ≠ [] ∧ tables[6].cols < 7 then none
    else
      some (listModify
        (fun t => { t with rows := processTable t.rows steps }) 6 tables)
  else none

/-- The SLA cell of the data row for step index `k` (table row `k + 1`,
cell 6), if present. -/
def slaCellOf (rows : List (List DCell)) (k : Nat) : Option DCell :=
  (rows[k + 1]?).bind fun row => row[6]?

/-- The text of the first run of a cell's first paragraph (the run the
merge applier writes into), if present. -/
def firstRunTextOf (c : DCell) : Option (Option String) :=
  c.paras.head?.bind fun p => (p.runs.head?).map DRun.text

/-! ## Merge Applier lemmas -/

theorem listModify_length {α : Type} (f : α → α) (n : Nat) (l : List α) :
    (listModify f n l).length = l.length := by
  induction l generalizing n with
  | nil => simp [listModify]
  | cons a as ih =>
    cases n with
    | zero => simp [listModify]
    | succ n => simp [listModify, ih]

theorem listModify_getElem_self {α : Type} (f : α → α) (n : Nat)
    (l : List α) : (listModify f n l)[n]? = (l[n]?).map f := by
  induction l generalizing n with
  | nil => simp [listModify]
  | cons a as ih =>
    cases n with
    | zero => simp [listModify]
    | succ n => simpa [listModify] using ih n

theorem listModify_getElem_other {α : Type} (f : α → α) (n m : Nat)
    (l : List α) (h : m ≠ n) : (listModify f n l)[m]? = l[m]? := by
  induction l generalizing n m with
  | nil => simp [listModify]
  | cons a as ih =>
    cases n with
    | zero =>
      cases m with
      | zero => exact absurd rfl h
      | succ m => simp [listModify]
    | succ n =>
      cases m with
      | zero => simp [listModify]
      | succ m =>
        simp only [listModify, List.getElem?_cons_succ]
        exact ih n m (by omega)

theorem applyRangeFrom_length (s e : Nat) (v : Option String)
    (rows : List (List DCell)) (o : Nat) :
    (applyRangeFrom s e v rows o).length = rows.length := by
  unfold applyRangeFrom
  split
  · rfl
  · split
    · rfl
    · rw [applyRangeFrom_length s e v _ (o + 1)]
      exact listModify_length _ _ _
termination_by e + 1 - o
decreasing_by omega

/-- Rows at or before the current offset, and rows past the range's
last row, are never touched by the per-range loop. -/
theorem applyRangeFrom_frame (s e : Nat) (v : Option String)
    (rows : List (List DCell)) (o : Nat) :
    ∀ m, m ≤ o ∨ e + 1 < m → (applyRangeFrom s e v rows o)[m]? = rows[m]? := by
  unfold applyRangeFrom
  split
  · intro m hm
    rfl
  · split
    · intro m hm
      rfl
    · intro m hm
      rw [applyRangeFrom_frame s e v _ (o + 1) m (by omega)]
      exact listModify_getElem_other _ _ _ _ (by omega)
termination_by e + 1 - o
decreasing_by omega

/-- Inside the range (and with enough table rows), table row `k + 1`
comes out as the input row with its cell 6 rewritten by
`applyToSlaCell`. -/
theorem applyRangeFrom_effect (s e : Nat) (v : Option String)
    (rows : List (List DCell)) (o : Nat) (hlen : e + 1 < rows.length) :
    ∀ k, o ≤ k → k ≤ e →
      (applyRangeFrom s e v rows o)[k + 1]? =
        (rows[k + 1]?).map
          (listModify (applyToSlaCell (k == s) (s < e) v) 6) := by
  unfold applyRangeFrom
  split
  · intro k hk1 hk2
    omega
  · split
    · rename_i h1 h2
      intro k hk1 hk2
      omega
    · rename_i h1 h2
      intro k hk1 hk2
      by_cases hk : k = o
      · subst hk
        rw [applyRangeFrom_frame s e v _ (k + 1) (k + 1) (Or.inl (Nat.le_refl _))]
        rw [listModify_getElem_self]
      · rw [applyRangeFrom_effect s e v _ (o + 1)
            (by rw [listModify_length]; exact hlen) k (by omega) hk2]
        rw [listModify_getElem_other _ _ _ _ (by omega)]
termination_by e + 1 - o
decreasing_by omega

/-- The per-range loop touches only cell 6 of any row. -/
theorem applyRangeFrom_cells (s e : Nat) (v : Option String)
    (rows : List (List DCell)) (o : Nat) :
    ∀ (i j : Nat), j ≠ 6 →
      ((applyRangeFrom s e v rows o)[i]?).bind (fun (r : List DCell) => r[j]?) =
        (rows[i]?).bind (fun (r : List DCell) => r[j]?) := by
  unfold applyRangeFrom
  split
  · intro i j hj
    rfl
  · split
    · intro i j hj
      rfl
    · intro i j hj
      rw [applyRangeFrom_cells s e v _ (o + 1) i j hj]
      by_cases hi : i = o + 1
      · subst hi
        rw [listModify_getElem_self]
        cases hrow : rows[o + 1]? with
        | none => rfl
        | some row =>
          simp only [Option.map_some', Option.some_bind]
          exact listModify_getElem_other _ _ _ _ hj
      · rw [listModify_getElem_other _ _ _ _ hi]
termination_by e + 1 - o
decreasing_by omega

theorem applySlaMerges_length (rows : List (List DCell))
    (merges : List (Nat × Nat × Option String)) :
    (applySlaMerges rows merges).length = rows.length := by
  induction merges generalizing rows with
  | nil => rfl
  | cons m ms ih =>
    show (applySlaMerges (applyRangeFrom m.1 m.2.1 m.2.2 rows m.1) ms).length = _
    rw [ih, applyRangeFrom_length]

/-- The merge applier touches only cell 6 of any row. -/
theorem applySlaMerges_cells (rows : List (List DCell))
    (merges : List (Nat × Nat × Option String)) :
    ∀ (i j : Nat), j ≠ 6 →
      ((applySlaMerges rows merges)[i]?).bind (fun (r : List DCell) => r[j]?) =
        (rows[i]?).bind (fun (r : List DCell) => r[j]?) := by
  induction merges generalizing rows with
  | nil =>
    intro i j hj
    rfl
  | cons m ms ih =>
    intro i j hj
    show ((applySlaMerges (applyRangeFrom m.1 m.2.1 m.2.2 rows m.1) ms)[i]?).bind _ = _
    rw [ih _ i j hj, applyRangeFrom_cells _ _ _ _ _ i j hj]

/-! ## Claim theorems -/

/-- C1: when the planner's scan reaches a step with a non-empty `sla`
and no `sla_group`, it opens a range at that index, extends it through
every immediately following gateway step, and closes it there (the
next scanned index is just past the range, and the step there, if any,
is not a gateway); in particular on
`[A(sla="4h"), gateway, gateway, B(no sla)]` it yields exactly the
range `(0, 2)` with value `"4h"`, and index 3 lies in no range. -/
theorem claim_C1_sla_task_absorbs_gateways (steps : List Step) (idx : Nat)
    (st : Step) (hst : steps[idx]? = some st)
    (h1 : pyTruthy st.sla = true) (h2 : pyTruthy st.sla_group = false) :
    (slaMergesLoop steps idx =
      (idx, (absorbGateways steps (idx + 1) idx).2, st.sla) ::
        slaMergesLoop steps ((absorbGateways steps (idx + 1) idx).2 + 1)) ∧
    (∀ k, idx < k → k ≤ (absorbGateways steps (idx + 1) idx).2 →
      ∃ s, steps[k]? = some s ∧ s.is_gateway = true) ∧
    (∀ s, steps[(absorbGateways steps (idx + 1) idx).2 + 1]? = some s →
      s.is_gateway = false) ∧
    computeSlaMerges exC1 = [(0, 2, some "4h")] ∧
    (∀ r ∈ computeSlaMerges exC1, ¬(r.1 ≤ 3 ∧ 3 ≤ r.2.1)) := by
  obtain ⟨hlt, heq⟩ := List.getElem?_eq_some.mp hst
  have hex : computeSlaMerges exC1 = [(0, 2, some "4h")] := by
    simp [computeSlaMerges, slaMergesLoop, absorbGateways, skipGateways,
      exC1, mkStep, pyTruthy]
  refine ⟨?_, ?_, ?_, hex, ?_⟩
  · have hb : (pyTruthy steps[idx].sla && !pyTruthy steps[idx].sla_group) = true := by
      rw [heq, h1, h2]
      rfl
    rw [slaMergesLoop_branch1 steps idx hlt hb, heq,
      absorbGateways_fst_eq_snd steps idx]
  · exact absorbGateways_absorbed steps idx
  · rw [← absorbGateways_fst_eq_snd steps idx]
    exact absorbGateways_exit steps (idx + 1) idx
  · rw [hex]
    intro r hr
    rw [List.mem_singleton] at hr
    subst hr
    decide

/-- Witness for C1: the theorem applied to `exC1` at index 0. -/
theorem claim_C1_witness :
    exC1[0]? = some (mkStep false (some "4h") none) ∧
    pyTruthy (mkStep false (some "4h") none).sla = true ∧
    pyTruthy (mkStep false (some "4h") none).sla_group = false ∧
    ((slaMergesLoop exC1 0 =
      (0, (absorbGateways exC1 (0 + 1) 0).2, (mkStep false (some "4h") none).sla) ::
        slaMergesLoop exC1 ((absorbGateways exC1 (0 + 1) 0).2 + 1)) ∧
    (∀ k, 0 < k → k ≤ (absorbGateways exC1 (0 + 1) 0).2 →
      ∃ s, exC1[k]? = some s ∧ s.is_gateway = true) ∧
    (∀ s, exC1[(absorbGateways exC1 (0 + 1) 0).2 + 1]? = some s →
      s.is_gateway = false) ∧
    computeSlaMerges exC1 = [(0, 2, some "4h")] ∧
    (∀ r ∈ computeSlaMerges exC1, ¬(r.1 ≤ 3 ∧ 3 ≤ r.2.1))) :=
  ⟨by simp [exC1], by decide, by decide,
    claim_C1_sla_task_absorbs_gateways exC1 0 (mkStep false (some "4h") none)
      (by simp [exC1]) (by decide) (by decide)⟩

/-- C2: when the planner's scan reaches a step with a non-empty
`sla_group`, it opens a range there valued with that step's `sla`,
absorbs following gateway steps and same-group steps (every absorbed
index holds a gateway or a step with the same group key), and stops
exactly when the next non-gateway step's group key differs or is
absent, or the sequence ends; in particular on steps sharing
`sla_group="G"`, `sla="24h"` at indices 2,3,4 with a gateway at index
3, it yields the single range `(2, 4)` with value `"24h"`. -/
theorem claim_C2_group_range_absorbs (steps : List Step) (idx : Nat)
    (st : Step) (hst : steps[idx]? = some st)
    (hg : pyTruthy st.sla_group = true) :
    (slaMergesLoop steps idx =
      (idx,
        (absorbGroup steps st.sla_group
          (absorbGateways steps (idx + 1) idx).1
          (absorbGateways steps (idx + 1) idx).2).2, st.sla) ::
        slaMergesLoop steps
          ((absorbGroup steps st.sla_group
            (absorbGateways steps (idx + 1) idx).1
            (absorbGateways steps (idx + 1) idx).2).2 + 1)) ∧
    (∀ k, idx < k →
      k ≤ (absorbGroup steps st.sla_group
            (absorbGateways steps (idx + 1) idx).1
            (absorbGateways steps (idx + 1) idx).2).2 →
      ∃ s, steps[k]? = some s ∧
        (s.is_gateway = true ∨ (s.sla_group == st.sla_group) = true)) ∧
    (∀ s, steps[(absorbGroup steps st.sla_group
            (absorbGateways steps (idx + 1) idx).1
            (absorbGateways steps (idx + 1) idx).2).2 + 1]? = some s →
      s.is_gateway = false ∧ (s.sla_group == st.sla_group) = false) ∧
    computeSlaMerges exC2 = [(2, 4, some "24h")] := by
  obtain ⟨hlt, heq⟩ := List.getElem?_eq_some.mp hst
  have hfe := absorbGateways_fst_eq_snd steps idx
  have hgfe := absorbGroup_fst_eq_snd steps st.sla_group
    (absorbGateways steps (idx + 1) idx).1
    (absorbGateways steps (idx + 1) idx).2 hfe
  refine ⟨?_, ?_, ?_, ?_⟩
  · have hb : pyTruthy steps[idx].sla_group = true := by
      rw [heq]
      exact hg
    rw [slaMergesLoop_branch2 steps idx hlt hb, heq, hgfe]
  · intro k hk1 hk2
    by_cases hk3 : k ≤ (absorbGateways steps (idx + 1) idx).2
    · obtain ⟨s, hs1, hs2⟩ := absorbGateways_absorbed steps idx k hk1 hk3
      exact ⟨s, hs1, Or.inl hs2⟩
    · have hk4 : (absorbGateways steps (idx + 1) idx).2 < k := by omega
      have := absorbGroup_absorbed steps st.sla_group
        (absorbGateways steps (idx + 1) idx).2 k hk4
      rw [← hfe] at this
      exact this hk2
  · intro s hs
    rw [← hgfe] at hs
    exact ⟨absorbGroup_exit_gateway steps st.sla_group
        (absorbGateways steps (idx + 1) idx).1
        (absorbGateways steps (idx + 1) idx).2
        (absorbGateways_exit steps (idx + 1) idx) s hs,
      absorbGroup_exit_group steps st.sla_group
        (absorbGateways steps (idx + 1) idx).1
        (absorbGateways steps (idx + 1) idx).2 s hs⟩
  · simp [computeSlaMerges, slaMergesLoop, absorbGateways, absorbGroup,
      skipGateways, exC2, mkStep, pyTruthy]

/-- Witness for C2: the theorem applied to `exC2` at index 2. -/
theorem claim_C2_witness :
    exC2[2]? = some (mkStep false (some "24h") (some "G")) ∧
    pyTruthy (mkStep false (some "24h") (some "G")).sla_group = true ∧
    ((slaMergesLoop exC2 2 =
      (2,
        (absorbGroup exC2 (mkStep false (some "24h") (some "G")).sla_group
          (absorbGateways exC2 (2 + 1) 2).1
          (absorbGateways exC2 (2 + 1) 2).2).2,
        (mkStep false (some "24h") (some "G")).sla) ::
        slaMergesLoop exC2
          ((absorbGroup exC2 (mkStep false (some "24h") (some "G")).sla_group
            (absorbGateways exC2 (2 + 1) 2).1
            (absorbGateways exC2 (2 + 1) 2).2).2 + 1)) ∧
    (∀ k, 2 < k →
      k ≤ (absorbGroup exC2 (mkStep false (some "24h") (some "G")).sla_group
            (absorbGateways exC2 (2 + 1) 2).1
            (absorbGateways exC2 (2 + 1) 2).2).2 →
      ∃ s, exC2[k]? = some s ∧
        (s.is_gateway = true ∨
          (s.sla_group == (mkStep false (some "24h") (some "G")).sla_group) = true)) ∧
    (∀ s, exC2[(absorbGroup exC2 (mkStep false (some "24h") (some "G")).sla_group
            (absorbGateways exC2 (2 + 1) 2).1
            (absorbGateways exC2 (2 + 1) 2).2).2 + 1]? = some s →
      s.is_gateway = false ∧
        (s.sla_group == (mkStep false (some "24h") (some "G")).sla_group) = false) ∧
    computeSlaMerges exC2 = [(2, 4, some "24h")]) :=
  ⟨by simp [exC2], by decide,
    claim_C2_group_range_absorbs exC2 2 (mkStep false (some "24h") (some "G"))
      (by simp [exC2]) (by decide)⟩

/-- C3 counterexample: on the single-step sequence `exC3`, whose only
step is a gateway carrying its own truthy `sla`, the planner emits a
range whose start index 0 points at a gateway step — refuting "no
computed range's start index points at a gateway step" for arbitrary
step sequences. -/
theorem claim_C3_counterexample :
    computeSlaMerges exC3 = [(0, 0, some "4h")] ∧
    (∃ s, exC3[0]? = some s ∧ s.is_gateway = true) := by
  constructor
  · simp [computeSlaMerges, slaMergesLoop, absorbGateways, skipGateways,
      exC3, mkStep, pyTruthy]
  · exact ⟨mkStep true (some "4h") none, by simp [exC3], rfl⟩

/-- C3 (amended): provided every gateway step carries a falsy `sla` and
a falsy `sla_group` (as branch-outcome rows produced by the parser do),
no computed range's start index points at a gateway step: a gateway
only extends a range opened by an earlier step or is excluded from all
ranges. -/
theorem claim_C3_no_gateway_owner (steps : List Step)
    (hgw : ∀ s ∈ steps, s.is_gateway = true →
      pyTruthy s.sla = false ∧ pyTruthy s.sla_group = false) :
    ∀ r ∈ computeSlaMerges steps,
      ∃ s, steps[r.1]? = some s ∧ s.is_gateway = false := by
  intro r hr
  obtain ⟨s, hs1, _, hs3⟩ := slaMergesLoop_value steps 0 r hr
  refine ⟨s, hs1, ?_⟩
  cases hb : s.is_gateway
  · rfl
  · obtain ⟨hf1, hf2⟩ := hgw s (List.getElem?_mem hs1) hb
    rcases hs3 with hs3 | hs3
    · rw [hf1] at hs3
      cases hs3
    · rw [hf2] at hs3
      cases hs3

/-- Witness for the amended C3: applied to `exC1` (whose gateway steps
carry no sla and no group) and its only range. -/
theorem claim_C3_witness :
    (∀ s ∈ exC1, s.is_gateway = true →
      pyTruthy s.sla = false ∧ pyTruthy s.sla_group = false) ∧
    ((0, 2, some "4h") ∈ computeSlaMerges exC1) ∧
    (∃ s, exC1[(0, 2, (some "4h" : Option String)).1]? = some s ∧
      s.is_gateway = false) :=
  ⟨by decide,
   by simp [computeSlaMerges, slaMergesLoop, absorbGateways, skipGateways,
      exC1, mkStep, pyTruthy],
   claim_C3_no_gateway_owner exC1 (by decide) (0, 2, some "4h")
     (by simp [computeSlaMerges, slaMergesLoop, absorbGateways, skipGateways,
        exC1, mkStep, pyTruthy])⟩

/-- C4: the planner's merge ranges are pairwise non-overlapping - no
step index lies inside two distinct ranges. -/
theorem claim_C4_ranges_disjoint (steps : List Step) :
    ∀ r1 ∈ computeSlaMerges steps, ∀ r2 ∈ computeSlaMerges steps,
      r1 ≠ r2 → ∀ k, ¬(r1.1 ≤ k ∧ k ≤ r1.2.1 ∧ r2.1 ≤ k ∧ k ≤ r2.2.1) := by
  intro r1 h1 r2 h2 hne k hk
  have h1s : r1 ∈ slaMergesLoop steps 0 := h1
  have h2s : r2 ∈ slaMergesLoop steps 0 := h2
  have hp : List.Pairwise
      (fun a b : Nat × Nat × Option String => a.2.1 < b.1 ∨ b.2.1 < a.1)
      (slaMergesLoop steps 0) :=
    (slaMergesLoop_chain steps 0).imp Or.inl
  have hsym : Symmetric
      (fun a b : Nat × Nat × Option String => a.2.1 < b.1 ∨ b.2.1 < a.1) :=
    fun a b h => h.symm
  have := List.Pairwise.forall hsym hp h1s h2s hne
  omega

/-- Witness for C4: the two ranges of `exC4` do not both contain index
0. -/
theorem claim_C4_witness :
    (0, 0, (some "1h" : Option String)) ∈ computeSlaMerges exC4 ∧
    (1, 1, (some "2h" : Option String)) ∈ computeSlaMerges exC4 ∧
    (0, 0, (some "1h" : Option String)) ≠ (1, 1, (some "2h" : Option String)) ∧
    ¬((0, 0, (some "1h" : Option String)).1 ≤ 0 ∧
      0 ≤ (0, 0, (some "1h" : Option String)).2.1 ∧
      (1, 1, (some "2h" : Option String)).1 ≤ 0 ∧
      0 ≤ (1, 1, (some "2h" : Option String)).2.1) := by
  have hm1 : (0, 0, (some "1h" : Option String)) ∈ computeSlaMerges exC4 := by
    simp [computeSlaMerges, slaMergesLoop, absorbGateways, skipGateways,
      exC4, mkStep, pyTruthy]
  have hm2 : (1, 1, (some "2h" : Option String)) ∈ computeSlaMerges exC4 := by
    simp [computeSlaMerges, slaMergesLoop, absorbGateways, skipGateways,
      exC4, mkStep, pyTruthy]
  exact ⟨hm1, hm2, by decide,
    claim_C4_ranges_disjoint exC4 _ hm1 _ hm2 (by decide) 0⟩

/-- C10: the value of every merge range is the `sla` of the step at the
range's start index - for a group run, the first member's `sla` wins; in
particular on `exC10` (first group member with no `sla`, second with
`sla="8h"`) the single range carries the empty value and `"8h"` appears
in no range. -/
theorem claim_C10_first_member_sla_wins (steps : List Step) :
    (∀ r ∈ computeSlaMerges steps,
      ∃ s, steps[r.1]? = some s ∧ r.2.2 = s.sla) ∧
    computeSlaMerges exC10 = [(0, 1, none)] ∧
    (∀ r ∈ computeSlaMerges exC10, r.2.2 ≠ some "8h") := by
  have hex : computeSlaMerges exC10 = [(0, 1, none)] := by
    simp [computeSlaMerges, slaMergesLoop, absorbGateways, absorbGroup,
      skipGateways, exC10, mkStep, pyTruthy]
  refine ⟨?_, hex, ?_⟩
  · intro r hr
    obtain ⟨s, hs1, hs2, _⟩ := slaMergesLoop_value steps 0 r hr
    exact ⟨s, hs1, hs2⟩
  · rw [hex]
    intro r hr
    rw [List.mem_singleton] at hr
    subst hr
    decide

/-- Witness for C10: the theorem's universal part applied to `exC10`
and its only range. -/
theorem claim_C10_witness :
    (0, 1, (none : Option String)) ∈ computeSlaMerges exC10 ∧
    (∃ s, exC10[(0, 1, (none : Option String)).1]? = some s ∧
      (0, 1, (none : Option String)).2.2 = s.sla) := by
  have hm : (0, 1, (none : Option String)) ∈ computeSlaMerges exC10 := by
    simp [computeSlaMerges, slaMergesLoop, absorbGateways, absorbGroup,
      skipGateways, exC10, mkStep, pyTruthy]
  exact ⟨hm, (claim_C10_first_member_sla_wins exC10).1 _ hm⟩

theorem buildStepTable_length (tRows : List (List DCell))
    (steps : List Step) (hT : tRows ≠ []) :
    (buildStepTable tRows steps).length = steps.length + 1 := by
  rw [buildStepTable, List.length_append, List.length_take, List.length_map]
  have h1 : 0 < tRows.length := List.length_pos.mpr hT
  omega

theorem buildStepTable_getElem_zero (tRows : List (List DCell))
    (steps : List Step) (hT : tRows ≠ []) :
    (buildStepTable tRows steps)[0]? = tRows[0]? := by
  have h1 : 0 < tRows.length := List.length_pos.mpr hT
  rw [buildStepTable,
    List.getElem?_append_left (by rw [List.length_take]; omega),
    List.getElem?_take]
  rw [if_pos (by omega)]

theorem buildStepTable_getElem_data (tRows : List (List DCell))
    (steps : List Step) (hT : tRows ≠ []) (i : Nat) :
    (buildStepTable tRows steps)[i + 1]? = (steps[i]?).map renderStep := by
  have h1 : 0 < tRows.length := List.length_pos.mpr hT
  rw [buildStepTable,
    List.getElem?_append_right (by rw [List.length_take]; omega),
    List.length_take]
  rw [show min 1 tRows.length = 1 by omega]
  exact List.getElem?_map renderStep steps i

/-- C5: applying one merge range `(s, e, v)` to the rendered step table
gives every row inside the range the `F2F2F2` SLA-cell fill; when the
range spans more than one row the first row is the vertical-merge
anchor (`w:vMerge` `restart`) and the following rows are continuations
(`w:vMerge` with no value); only the anchor row's SLA cell receives the
value text, continuation rows' SLA cells keep the empty text the
renderer left there. -/
theorem claim_C5_applier_range (tRows : List (List DCell))
    (steps : List Step) (s e : Nat) (v : Option String)
    (hT : tRows ≠ []) (he : e < steps.length) :
    ∀ k, s ≤ k → k ≤ e →
      ∃ c, slaCellOf (applyRangeFrom s e v (buildStepTable tRows steps) s) k
          = some c ∧
        c.shade = some "F2F2F2" ∧
        c.vMerges = (if s < e then [if k = s then some "restart" else none]
                     else []) ∧
        firstRunTextOf c = some (if k = s then v else some "") := by
  intro k hk1 hk2
  have hlen : e + 1 < (buildStepTable tRows steps).length := by
    rw [buildStepTable_length tRows steps hT]
    omega
  have heff := applyRangeFrom_effect s e v (buildStepTable tRows steps) s
    hlen k hk1 hk2
  have hk3 : k < steps.length := by omega
  have hrow : (buildStepTable tRows steps)[k + 1]? =
      some (renderStep steps[k]) := by
    rw [buildStepTable_getElem_data tRows steps hT k,
      List.getElem?_eq_getElem hk3]
    rfl
  have hc : slaCellOf (applyRangeFrom s e v (buildStepTable tRows steps) s) k
      = some (applyToSlaCell (k == s) (decide (s < e)) v slaCellInit) := by
    rw [slaCellOf, heff, hrow]
    simp only [Option.map_some', Option.some_bind]
    rw [listModify_getElem_self]
    simp [renderStep]
  refine ⟨_, hc, ?_, ?_, ?_⟩
  all_goals
    rcases eq_or_ne k s with hks | hks <;> by_cases hlt2 : s < e <;>
      simp [applyToSlaCell, writeSlaValue, slaCellInit, firstRunTextOf,
        plainRun, hks, hlt2]

/-- Witness for C5: the range `(0, 2, "4h")` of `exC1` applied to its
rendered table, observed at continuation row index 1. -/
theorem claim_C5_witness :
    ([[]] : List (List DCell)) ≠ [] ∧
    2 < exC1.length ∧ 0 ≤ 1 ∧ 1 ≤ 2 ∧
    (∃ c, slaCellOf
        (applyRangeFrom 0 2 (some "4h") (buildStepTable [[]] exC1) 0) 1
        = some c ∧
      c.shade = some "F2F2F2" ∧
      c.vMerges = (if 0 < 2 then [if 1 = 0 then some "restart" else none]
                   else []) ∧
      firstRunTextOf c = some (if 1 = 0 then some "4h" else some "")) :=
  ⟨by decide, by decide, by decide, by decide,
    claim_C5_applier_range [[]] exC1 0 2 (some "4h") (by decide) (by decide)
      1 (by decide) (by decide)⟩

/-- C6: the merge applier mutates only the SLA column - for every row
of the table, every cell other than cell 6 (in particular the first six
cells: ref, description and the four RACI cells) is identical before
and after `applySlaMerges`, and the number of rows is unchanged. -/
theorem claim_C6_applier_frame (rows : List (List DCell))
    (merges : List (Nat × Nat × Option String)) :
    (applySlaMerges rows merges).length = rows.length ∧
    ∀ (i j : Nat), j < 6 →
      ((applySlaMerges rows merges)[i]?).bind (fun (r : List DCell) => r[j]?)
        = (rows[i]?).bind (fun (r : List DCell) => r[j]?) :=
  ⟨applySlaMerges_length rows merges,
   fun i j hj => applySlaMerges_cells rows merges i j (by omega)⟩

/-- Witness for C6: the frame property observed on the rendered table
of `exC1` with its computed merges, at row 1, cell 0. -/
theorem claim_C6_witness :
    (0 : Nat) < 6 ∧
    ((applySlaMerges (buildStepTable [[]] exC1) (computeSlaMerges exC1))[1]?).bind
        (fun (r : List DCell) => r[0]?)
      = ((buildStepTable [[]] exC1)[1]?).bind (fun (r : List DCell) => r[0]?) :=
  ⟨by decide,
   (claim_C6_applier_frame (buildStepTable [[]] exC1)
     (computeSlaMerges exC1)).2 1 0 (by decide)⟩

/-- C7: the rendered step table has one data row per input step, the
`i`-th data row (table row `i + 1`) is the rendering of the `i`-th
step, order preserved; an empty step sequence leaves the header row
only, with no ranges to apply and no error. -/
theorem claim_C7_rows_bijection (tRows : List (List DCell))
    (steps : List Step) (hT : tRows ≠ []) :
    (buildStepTable tRows steps).length = steps.length + 1 ∧
    (buildStepTable tRows steps)[0]? = tRows[0]? ∧
    (∀ i : Nat, (buildStepTable tRows steps)[i + 1]? =
      (steps[i]?).map renderStep) ∧
    buildStepTable tRows [] = tRows.take 1 ∧
    computeSlaMerges [] = [] ∧
    processTable tRows [] = tRows.take 1 := by
  have hempty : computeSlaMerges ([] : List Step) = [] := by
    simp [computeSlaMerges, slaMergesLoop]
  refine ⟨buildStepTable_length tRows steps hT,
    buildStepTable_getElem_zero tRows steps hT,
    fun i => buildStepTable_getElem_data tRows steps hT i,
    by simp [buildStepTable], hempty, ?_⟩
  show applySlaMerges (buildStepTable tRows []) (computeSlaMerges []) = _
  rw [hempty]
  show buildStepTable tRows [] = _
  simp [buildStepTable]

/-- Witness for C7: the theorem applied to a one-row template table and
`exC1`. -/
theorem claim_C7_witness :
    ([[]] : List (List DCell)) ≠ [] ∧
    ((buildStepTable [[]] exC1).length = exC1.length + 1 ∧
     (buildStepTable [[]] exC1)[0]? = ([[]] : List (List DCell))[0]? ∧
     (∀ i : Nat, (buildStepTable [[]] exC1)[i + 1]? =
       (exC1[i]?).map renderStep) ∧
     buildStepTable [[]] [] = ([[]] : List (List DCell)).take 1 ∧
     computeSlaMerges [] = [] ∧
     processTable [[]] [] = ([[]] : List (List DCell)).take 1) :=
  ⟨by decide, claim_C7_rows_bijection [[]] exC1 (by decide)⟩

/-- C8: the row renderer degrades malformed step data silently - a
description paragraph whose alignment is neither `"CENTER"` nor
`"JUSTIFY"` is rendered left-aligned, and a RACI value that is absent
or falsy renders as the literal placeholder `"N/A"` (the rendered RACI
cell equals the cell rendered from the literal `"N/A"`); both
definitions are total, so neither case can raise. -/
theorem claim_C8_graceful_degradation (pd : ParaData) (v : Option String)
    (hc : pd.alignment ≠ "CENTER") (hj : pd.alignment ≠ "JUSTIFY")
    (hv : pyTruthy v = false) :
    (renderParaData pd).alignment = some Align.LEFT ∧
    raciDisplay v = "N/A" ∧
    raciCell v = raciCell (some "N/A") := by
  have hd : raciDisplay v = "N/A" := by
    cases v with
    | none => rfl
    | some s =>
      simp [pyTruthy] at hv
      subst hv
      rfl
  refine ⟨?_, hd, ?_⟩
  · simp [renderParaData, alignOf, hc, hj]
  · have h2 : raciDisplay v = raciDisplay (some "N/A") := by
      rw [hd]
      decide
    simp only [raciCell, h2]

/-- Witness for C8: a paragraph with alignment `"weird"` and an absent
RACI value. -/
theorem claim_C8_witness :
    (⟨"x", "weird", 12, false⟩ : ParaData).alignment ≠ "CENTER" ∧
    (⟨"x", "weird", 12, false⟩ : ParaData).alignment ≠ "JUSTIFY" ∧
    pyTruthy none = false ∧
    ((renderParaData ⟨"x", "weird", 12, false⟩).alignment = some Align.LEFT ∧
     raciDisplay none = "N/A" ∧
     raciCell none = raciCell (some "N/A")) :=
  ⟨by decide, by decide, by decide,
    claim_C8_graceful_degradation ⟨"x", "weird", 12, false⟩ none
      (by decide) (by decide) (by decide)⟩

/-- C9: a structural template problem (no tables at all, the required
step table at position 6 missing, or a step table with fewer than the
expected 7 cells while steps must be rendered) makes the build return
the single failure value `none` instead of a document: no partial
document reaches the caller. -/
theorem claim_C9_structural_failure (tables : List PTable)
    (steps : List Step) :
    (tables = [] → buildDoc tables steps = none) ∧
    (tables.length ≤ 6 → buildDoc tables steps = none) ∧
    (∀ t, tables[6]? = some t → t.cols < 7 → steps ≠ [] →
      buildDoc tables steps = none) := by
  refine ⟨?_, ?_, ?_⟩
  · intro h
    subst h
    rfl
  · intro h
    simp only [buildDoc]
    split
    · rfl
    · rw [dif_neg (by omega)]
  · intro t ht hcols hsteps
    obtain ⟨hlt, heq⟩ := List.getElem?_eq_some.mp ht
    have hne : ¬(tables.isEmpty = true) := by
      rw [List.isEmpty_iff]
      intro hcon
      subst hcon
      simp at hlt
    simp only [buildDoc]
    rw [if_neg hne, dif_pos hlt, if_pos ⟨hsteps, by rw [heq]; exact hcols⟩]

/-- Witness for C9: all three structural failures at concrete
templates. -/
theorem claim_C9_witness :
    buildDoc [] [] = none ∧
    buildDoc [⟨2, []⟩] [] = none ∧
    buildDoc (List.replicate 7 ⟨2, []⟩) exC1 = none := by
  refine ⟨(claim_C9_structural_failure [] []).1 rfl,
    (claim_C9_structural_failure [⟨2, []⟩] []).2.1 (by decide), ?_⟩
  exact (claim_C9_structural_failure (List.replicate 7 ⟨2, []⟩) exC1).2.2
    ⟨2, []⟩ rfl (by decide) (by decide)
